import Mathlib

/-!
Verification of the medplum-provider scheduling subsystem: the interval merge
engine, the range/clock policy, the availability search controller, the booking
transaction controller, and the transient-identifier registry, shallowly
embedded from the TypeScript sources.
-/

namespace MedplumProvider

/-! ### Interval merge engine

Modelled from the spec: `mergeOverlappingSlots` lives in `src/utils/slots.ts`,
which is not included in the sources (only its caller `SchedulePage.tsx` is).
The definitions below follow the spec, section 4.1: sort by start ascending,
then scan once, merging the accumulator with the next interval whenever
`next.start <= accumulator.end` (so touching intervals merge), otherwise
flushing the accumulator and starting a new one.  Instants are epoch
milliseconds, modelled as `Int`.
-/

/-- A time interval `{start, end}` (epoch milliseconds). -/
structure Interval where
  start : Int
  stop : Int
deriving DecidableEq, Repr

/-- Insert an interval into a list that is sorted ascending by start time. -/
def insertByStart (i : Interval) : List Interval → List Interval
  | [] => [i]
  | j :: rest => if i.start ≤ j.start then i :: j :: rest else j :: insertByStart i rest

/-- Sort intervals ascending by start time (insertion sort). -/
def sortByStart : List Interval → List Interval
  | [] => []
  | i :: rest => insertByStart i (sortByStart rest)

/-- One merging scan over a start-sorted list: whenever the next interval
starts no later than the accumulator ends, absorb it (extending the end to the
max); otherwise flush the accumulator. -/
def mergeScan (acc : Interval) : List Interval → List Interval
  | [] => [acc]
  | i :: rest =>
    if i.start ≤ acc.stop then mergeScan ⟨acc.start, max acc.stop i.stop⟩ rest
    else acc :: mergeScan i rest

/-- Modelled from the spec: `mergeOverlappingSlots` from `src/utils/slots.ts`
(missing from the sources), per spec section 4.1. -/
def mergeOverlappingSlots (l : List Interval) : List Interval :=
  match sortByStart l with
  | [] => []
  | i :: rest => mergeScan i rest

/-- A point in time is covered by a list of intervals when it lies in one of
them (half-open `[start, stop)` semantics). -/
def covers (l : List Interval) (t : Int) : Prop :=
  ∃ i, i ∈ l ∧ i.start ≤ t ∧ t < i.stop

theorem mergeOverlappingSlots_spec_example :
    mergeOverlappingSlots [⟨600, 630⟩, ⟨615, 645⟩, ⟨660, 670⟩] = [⟨600, 645⟩, ⟨660, 670⟩] := by
  decide

theorem mergeOverlappingSlots_touching_example :
    mergeOverlappingSlots [⟨600, 630⟩, ⟨630, 660⟩] = [⟨600, 660⟩] := by
  decide

theorem insertByStart_perm (i : Interval) (l : List Interval) :
    List.Perm (insertByStart i l) (i :: l) := by
  induction l with
  | nil => simp [insertByStart]
  | cons j rest ih =>
    by_cases h : i.start ≤ j.start
    · simp [insertByStart, h]
    · rw [insertByStart, if_neg h]
      exact (ih.cons j).trans (List.Perm.swap i j rest)

theorem sortByStart_perm (l : List Interval) : List.Perm (sortByStart l) l := by
  induction l with
  | nil => simp [sortByStart]
  | cons i rest ih =>
    rw [sortByStart]
    exact (insertByStart_perm i (sortByStart rest)).trans (ih.cons i)

theorem insertByStart_sorted {i : Interval} {l : List Interval}
    (h : List.Sorted (fun a b => a.start ≤ b.start) l) :
    List.Sorted (fun a b => a.start ≤ b.start) (insertByStart i l) := by
  induction l with
  | nil => simp [insertByStart]
  | cons j rest ih =>
    obtain ⟨hj, hrest⟩ := List.sorted_cons.mp h
    by_cases hij : i.start ≤ j.start
    · rw [insertByStart, if_pos hij, List.sorted_cons]
      refine ⟨?_, h⟩
      intro b hb
      rcases List.mem_cons.mp hb with rfl | hb
      · exact hij
      · exact le_trans hij (hj b hb)
    · rw [insertByStart, if_neg hij, List.sorted_cons]
      refine ⟨?_, ih hrest⟩
      intro b hb
      rcases List.mem_cons.mp ((insertByStart_perm i rest).mem_iff.mp hb) with rfl | hb
      · exact le_of_not_le hij
      · exact hj b hb

theorem sortByStart_sorted (l : List Interval) :
    List.Sorted (fun a b => a.start ≤ b.start) (sortByStart l) := by
  induction l with
  | nil => simp [sortByStart]
  | cons i rest ih => exact insertByStart_sorted ih

theorem covers_cons {i : Interval} {l : List Interval} {t : Int} :
    covers (i :: l) t ↔ (i.start ≤ t ∧ t < i.stop) ∨ covers l t := by
  unfold covers
  constructor
  · rintro ⟨j, hj, h1, h2⟩
    rcases List.mem_cons.mp hj with rfl | hj
    · exact Or.inl ⟨h1, h2⟩
    · exact Or.inr ⟨j, hj, h1, h2⟩
  · rintro (⟨h1, h2⟩ | ⟨j, hj, h1, h2⟩)
    · exact ⟨i, List.mem_cons_self i l, h1, h2⟩
    · exact ⟨j, List.mem_cons_of_mem i hj, h1, h2⟩

theorem covers_perm {l l' : List Interval} (h : List.Perm l l') (t : Int) :
    covers l t ↔ covers l' t := by
  unfold covers
  constructor
  · rintro ⟨i, hi, h1, h2⟩
    exact ⟨i, h.mem_iff.mp hi, h1, h2⟩
  · rintro ⟨i, hi, h1, h2⟩
    exact ⟨i, h.mem_iff.mpr hi, h1, h2⟩

/-- Merging one interval into the accumulator preserves the covered set, as
long as the new interval starts no later than the accumulator ends and no
earlier than it starts. -/
theorem interval_merge_union {a i : Interval} (hle : i.start ≤ a.stop)
    (hai : a.start ≤ i.start) (t : Int) :
    (a.start ≤ t ∧ t < max a.stop i.stop) ↔
      (a.start ≤ t ∧ t < a.stop) ∨ (i.start ≤ t ∧ t < i.stop) := by
  rcases le_total a.stop i.stop with hm | hm
  · rw [max_eq_right hm]; omega
  · rw [max_eq_left hm]; omega

theorem covers_mergeScan {l : List Interval} {acc : Interval} (t : Int)
    (hs : List.Sorted (fun a b => a.start ≤ b.start) (acc :: l)) :
    covers (mergeScan acc l) t ↔ (acc.start ≤ t ∧ t < acc.stop) ∨ covers l t := by
  induction l generalizing acc with
  | nil => simp [mergeScan, covers_cons, covers]
  | cons i rest ih =>
    obtain ⟨hacc, hrest⟩ := List.sorted_cons.mp hs
    have hai : acc.start ≤ i.start := hacc i (List.mem_cons_self i rest)
    by_cases h : i.start ≤ acc.stop
    · rw [mergeScan, if_pos h]
      have hs' : List.Sorted (fun a b => a.start ≤ b.start)
          ((⟨acc.start, max acc.stop i.stop⟩ : Interval) :: rest) := by
        refine List.sorted_cons.mpr ⟨?_, (List.sorted_cons.mp hrest).2⟩
        intro b hb
        exact hacc b (List.mem_cons_of_mem i hb)
      rw [ih hs', covers_cons, interval_merge_union h hai t]
      tauto
    · rw [mergeScan, if_neg h, covers_cons, covers_cons, ih hrest]

theorem mergeScan_head (l : List Interval) (acc : Interval) :
    ∃ e tl, mergeScan acc l = ⟨acc.start, e⟩ :: tl := by
  induction l generalizing acc with
  | nil => exact ⟨acc.stop, [], rfl⟩
  | cons i rest ih =>
    by_cases h : i.start ≤ acc.stop
    · rw [mergeScan, if_pos h]
      exact ih ⟨acc.start, max acc.stop i.stop⟩
    · rw [mergeScan, if_neg h]
      exact ⟨acc.stop, mergeScan i rest, rfl⟩

theorem mergeScan_chain {l : List Interval} {acc : Interval}
    (hs : List.Sorted (fun a b => a.start ≤ b.start) (acc :: l)) :
    List.Chain' (fun a b => a.stop < b.start) (mergeScan acc l) := by
  induction l generalizing acc with
  | nil => simp [mergeScan]
  | cons i rest ih =>
    obtain ⟨hacc, hrest⟩ := List.sorted_cons.mp hs
    by_cases h : i.start ≤ acc.stop
    · rw [mergeScan, if_pos h]
      refine ih (List.sorted_cons.mpr ⟨?_, (List.sorted_cons.mp hrest).2⟩)
      intro b hb
      exact hacc b (List.mem_cons_of_mem i hb)
    · rw [mergeScan, if_neg h]
      obtain ⟨e, tl, heq⟩ := mergeScan_head rest i
      rw [heq]
      refine List.chain'_cons.mpr ⟨lt_of_not_le h, ?_⟩
      rw [← heq]
      exact ih hrest

theorem mergeScan_wf {l : List Interval} {acc : Interval}
    (ha : acc.start ≤ acc.stop) (hl : ∀ i ∈ l, i.start ≤ i.stop) :
    ∀ x ∈ mergeScan acc l, x.start ≤ x.stop := by
  induction l generalizing acc with
  | nil =>
    intro x hx
    rw [mergeScan, List.mem_singleton] at hx
    subst hx
    exact ha
  | cons i rest ih =>
    by_cases h : i.start ≤ acc.stop
    · rw [mergeScan, if_pos h]
      exact ih (le_trans ha (le_max_left _ _)) (fun j hj => hl j (List.mem_cons_of_mem i hj))
    · rw [mergeScan, if_neg h]
      intro x hx
      rcases List.mem_cons.mp hx with rfl | hx
      · exact ha
      · exact ih (hl i (List.mem_cons_self i rest))
          (fun j hj => hl j (List.mem_cons_of_mem i hj)) x hx

theorem chain_pairwise_disjoint : ∀ {l : List Interval},
    (∀ x ∈ l, x.start ≤ x.stop) →
    List.Chain' (fun a b => a.stop < b.start) l →
    List.Pairwise (fun a b => a.stop < b.start) l := by
  intro l
  induction l with
  | nil => intro _ _; exact List.Pairwise.nil
  | cons a l ih =>
    intro hwf hc
    have htail : List.Pairwise (fun a b => a.stop < b.start) l :=
      ih (fun x hx => hwf x (List.mem_cons_of_mem a hx)) hc.tail
    refine List.pairwise_cons.mpr ⟨?_, htail⟩
    intro b hb
    cases l with
    | nil => cases hb
    | cons c l2 =>
      have hac : a.stop < c.start := (List.chain'_cons.mp hc).1
      rcases List.mem_cons.mp hb with rfl | hb2
      · exact hac
      · have hcb : c.stop < b.start := (List.pairwise_cons.mp htail).1 b hb2
        have hcwf : c.start ≤ c.stop := hwf c (List.mem_cons_of_mem a (List.mem_cons_self c l2))
        omega

/-- C1: For every finite list of slot intervals in which each interval starts
before it ends, `mergeOverlappingSlots` returns a list that is sorted
ascending by start time, pairwise non-overlapping with touching intervals
merged (every earlier interval ends strictly before every later one starts),
and whose union of covered time equals the union of covered time of the
input intervals. -/
theorem mergeOverlappingSlots_correct (l : List Interval)
    (hwf : ∀ i ∈ l, i.start < i.stop) :
    List.Pairwise (fun a b => a.start ≤ b.start) (mergeOverlappingSlots l) ∧
    List.Pairwise (fun a b => a.stop < b.start) (mergeOverlappingSlots l) ∧
    (∀ t : Int, covers (mergeOverlappingSlots l) t ↔ covers l t) := by
  have hperm := sortByStart_perm l
  have hsorted := sortByStart_sorted l
  unfold mergeOverlappingSlots
  cases hsl : sortByStart l with
  | nil =>
    rw [hsl] at hperm
    refine ⟨List.Pairwise.nil, List.Pairwise.nil, ?_⟩
    intro t
    exact Iff.symm (covers_perm hperm.symm t)
  | cons i rest =>
    rw [hsl] at hperm hsorted
    have hwfs : ∀ x ∈ i :: rest, x.start ≤ x.stop := by
      intro x hx
      exact le_of_lt (hwf x (hperm.mem_iff.mp hx))
    have hpair : List.Pairwise (fun a b => a.stop < b.start) (mergeScan i rest) := by
      refine chain_pairwise_disjoint ?_ (mergeScan_chain hsorted)
      exact mergeScan_wf (hwfs i (List.mem_cons_self i rest))
        (fun j hj => hwfs j (List.mem_cons_of_mem i hj))
    have hwfout : ∀ x ∈ mergeScan i rest, x.start ≤ x.stop :=
      mergeScan_wf (hwfs i (List.mem_cons_self i rest))
        (fun j hj => hwfs j (List.mem_cons_of_mem i hj))
    refine ⟨?_, hpair, ?_⟩
    · refine hpair.imp_of_mem ?_
      intro a b ha _ hr
      exact le_trans (hwfout a ha) (le_of_lt hr)
    · intro t
      rw [covers_mergeScan t hsorted, ← covers_cons]
      exact covers_perm hperm t

/-- Witness for C1 at the spec's own example `[{10:00,10:30},{10:15,10:45},{11:00,11:10}]`
(times in minutes). -/
theorem mergeOverlappingSlots_correct_witness :
    List.Pairwise (fun a b => a.start ≤ b.start)
      (mergeOverlappingSlots [⟨600, 630⟩, ⟨615, 645⟩, ⟨660, 670⟩]) ∧
    List.Pairwise (fun a b => a.stop < b.start)
      (mergeOverlappingSlots [⟨600, 630⟩, ⟨615, 645⟩, ⟨660, 670⟩]) ∧
    (∀ t : Int, covers (mergeOverlappingSlots [⟨600, 630⟩, ⟨615, 645⟩, ⟨660, 670⟩]) t ↔
      covers [⟨600, 630⟩, ⟨615, 645⟩, ⟨660, 670⟩] t) :=
  mergeOverlappingSlots_correct [⟨600, 630⟩, ⟨615, 645⟩, ⟨660, 670⟩] (by decide)

/-! ### Range/clock policy

From `FindPane.tsx`:
```
const ONE_WEEK_MS = 7 * 24 * 60 * 60 * 1000;
const earliestSchedulable = useSchedulingStartsAt({ minimumNoticeMinutes: 30 });
const searchStart = range.start < earliestSchedulable ? earliestSchedulable : range.start;
const searchEnd = searchStart < range.end ? range.end : new Date(searchStart.getTime() + ONE_WEEK_MS);
```
Instants are epoch milliseconds (`Date.getTime()`), modelled as `Int`.
-/

/-- The constant `7 * 24 * 60 * 60 * 1000` from `FindPane.tsx`. -/
def ONE_WEEK_MS : Int := 7 * 24 * 60 * 60 * 1000

/-- Modelled from the spec: the `useSchedulingStartsAt` hook
(`src/hooks/useSchedulingStartsAt.ts`, missing from the sources) computes the
earliest schedulable instant, wall-clock now plus the minimum notice
(spec section 4.5). -/
def schedulingStartsAt (now minimumNoticeMinutes : Int) : Int :=
  now + minimumNoticeMinutes * 60000

/-- The clamp `range.start < earliestSchedulable ? earliestSchedulable : range.start`. -/
def searchStart (rangeStart earliestSchedulable : Int) : Int :=
  if rangeStart < earliestSchedulable then earliestSchedulable else rangeStart

/-- The default `searchStart < range.end ? range.end : searchStart + ONE_WEEK_MS`. -/
def searchEnd (searchStartMs rangeEnd : Int) : Int :=
  if searchStartMs < rangeEnd then rangeEnd else searchStartMs + ONE_WEEK_MS

/-- C2: For every requested range and every clock value, the effective search
start is the maximum of the range start and the earliest schedulable instant
(now plus the 30-minute minimum notice), and the effective search end is the
range end when that is strictly after the effective start, otherwise the
effective start plus exactly 7 days. -/
theorem effectiveRange_correct (now rangeStart rangeEnd : Int) :
    searchStart rangeStart (schedulingStartsAt now 30) = max rangeStart (now + 30 * 60000) ∧
    (searchStart rangeStart (schedulingStartsAt now 30) < rangeEnd →
      searchEnd (searchStart rangeStart (schedulingStartsAt now 30)) rangeEnd = rangeEnd) ∧
    (rangeEnd ≤ searchStart rangeStart (schedulingStartsAt now 30) →
      searchEnd (searchStart rangeStart (schedulingStartsAt now 30)) rangeEnd =
        searchStart rangeStart (schedulingStartsAt now 30) + 7 * 24 * 60 * 60 * 1000) := by
  unfold searchStart searchEnd schedulingStartsAt ONE_WEEK_MS
  refine ⟨?_, ?_, ?_⟩
  · split <;> omega
  · intro h
    rw [if_pos h]
  · intro h
    rw [if_neg (not_lt.mpr h)]

/-- Witness for C2 at the spec's clamping example: `now = 2024-01-15T09:00:00Z`
(epoch ms 1705309200000), requested range starting `2024-01-15T09:10:00Z`
(1705309800000); the effective start is `2024-01-15T09:30:00Z` (1705311000000),
exercising both the proper range end (`09:40`) and the collapsed-range
one-week default (range end 0). -/
theorem effectiveRange_correct_witness :
    searchStart 1705309800000 (schedulingStartsAt 1705309200000 30) =
      max 1705309800000 (1705309200000 + 30 * 60000) ∧
    searchEnd (searchStart 1705309800000 (schedulingStartsAt 1705309200000 30))
      1705311600000 = 1705311600000 ∧
    searchEnd (searchStart 1705309800000 (schedulingStartsAt 1705309200000 30)) 0 =
      searchStart 1705309800000 (schedulingStartsAt 1705309200000 30) + 7 * 24 * 60 * 60 * 1000 :=
  ⟨(effectiveRange_correct 1705309200000 1705309800000 0).1,
   (effectiveRange_correct 1705309200000 1705309800000 1705311600000).2.1 (by decide),
   (effectiveRange_correct 1705309200000 1705309800000 0).2.2 (by decide)⟩

/-! ### Availability search controller: cancellation state machine

From `FindPane.tsx`, the `$find` effect: each effect run creates an
`AbortController`; the effect cleanup aborts the in-flight request unless its
`finally` handler already marked it completed; the success handler returns
without any state update when the signal is aborted; the failure handler
notifies the error only when the signal is not aborted.  The single-threaded
event loop is modelled as a serialized trace of events over a controller
state. -/

/-- Payload of a settled `$find` request: a slot list or an error. -/
inductive FindOutcome where
  | ok (slots : List Nat)
  | fail (err : Nat)
deriving DecidableEq, Repr

/-- State of one `FindPane` controller instance: the generation counter, the
current (latest-issued) request, the aborted and completed request sets, and
the observable outputs (`setSlots` deliveries and error notifications). -/
structure FindConState where
  nextId : Nat
  current : Option Nat
  abortedIds : List Nat
  completedIds : List Nat
  deliveries : List (Nat × List Nat)
  notifiedErrors : List (Nat × Nat)
deriving DecidableEq, Repr

def initialFindConState : FindConState := ⟨0, none, [], [], [], []⟩

/-- Events of the controller: a new effect run (new search superseding the
previous one), settlement of an issued request, and unmount teardown. -/
inductive FindEvent where
  | issue
  | settle (id : Nat) (outcome : FindOutcome)
  | teardown
deriving DecidableEq, Repr

/-- The effect cleanup: `if (!completed) controller.abort()`. -/
def cleanupCurrent (s : FindConState) : FindConState :=
  match s.current with
  | none => s
  | some i =>
    if s.completedIds.contains i then s else { s with abortedIds := i :: s.abortedIds }

/-- One serialized step of the `FindPane` effect protocol. -/
def findStep (s : FindConState) (e : FindEvent) : FindConState :=
  match e with
  | .issue =>
    let s1 := cleanupCurrent s
    { s1 with current := some s1.nextId, nextId := s1.nextId + 1 }
  | .teardown =>
    let s1 := cleanupCurrent s
    { s1 with current := none }
  | .settle i o =>
    if i < s.nextId ∧ s.completedIds.contains i = false then
      let s2 :=
        match o with
        | .ok slots =>
          if s.abortedIds.contains i then s
          else { s with deliveries := s.deliveries ++ [(i, slots)] }
        | .fail err =>
          if s.abortedIds.contains i then s
          else { s with notifiedErrors := s.notifiedErrors ++ [(i, err)] }
      { s2 with completedIds := i :: s2.completedIds }
    else s

def runFind (events : List FindEvent) : FindConState :=
  events.foldl findStep initialFindConState

/-- C3: Within one controller instance, a second search issued before the
first settles yields exactly one delivered result — the second's — whatever
the first's outcome and whichever order they settle in; a torn-down search
delivers nothing when it later settles; a cancelled request never surfaces an
error; a non-cancelled failed request surfaces its error. -/
theorem findCancellation_correct (o : FindOutcome) (s : List Nat) (e : Nat) :
    ((runFind [.issue, .issue, .settle 0 o, .settle 1 (.ok s)]).deliveries = [(1, s)] ∧
     (runFind [.issue, .issue, .settle 0 o, .settle 1 (.ok s)]).notifiedErrors = []) ∧
    ((runFind [.issue, .issue, .settle 1 (.ok s), .settle 0 o]).deliveries = [(1, s)] ∧
     (runFind [.issue, .issue, .settle 1 (.ok s), .settle 0 o]).notifiedErrors = []) ∧
    ((runFind [.issue, .teardown, .settle 0 o]).deliveries = [] ∧
     (runFind [.issue, .teardown, .settle 0 o]).notifiedErrors = []) ∧
    ((runFind [.issue, .settle 0 (.fail e)]).notifiedErrors = [(0, e)] ∧
     (runFind [.issue, .settle 0 (.fail e)]).deliveries = []) := by
  cases o <;>
    exact ⟨⟨rfl, rfl⟩, ⟨rfl, rfl⟩, ⟨rfl, rfl⟩, ⟨rfl, rfl⟩⟩

/-! ### Data model and transient identifier registry

From `src/utils/scheduling.ts` (`SchedulingTransientIdentifier`), which calls
the `@medplum/core` collaborator helpers `setIdentifier`/`getIdentifier`.
Identifier tokens (`uuidv4()` strings) are modelled as `Nat`, with freshness
modelled by threading a counter. -/

def MedplumSchedulingTransientIdentifierURI : String :=
  "https://medplum.com/fhir/scheduling-transient-id"

structure Identifier where
  system : Option String
  value : Option Nat
  use : Option String
deriving DecidableEq, Repr

structure Slot where
  id : Option String
  status : String
  identifier : List Identifier
deriving DecidableEq, Repr

structure Appointment where
  id : Option String
  status : String
deriving DecidableEq, Repr

/-- Modelled from the spec: `setIdentifier` of the `@medplum/core` collaborator
(not part of the sources).  Per spec section 4.2, assigning attaches the token
as a side-channel identifier under the registry's system URI, tagged with the
reserved temporary-use marker, and assigning twice to the same resource
overwrites the prior token: the entry with the matching system is replaced,
or a new entry is appended when none exists. -/
def setIdentifierList : List Identifier → String → Nat → List Identifier
  | [], system, value => [⟨some system, some value, some ("temp")⟩]
  | i :: rest, system, value =>
    if i.system = some system then ⟨some system, some value, some ("temp")⟩ :: rest
    else i :: setIdentifierList rest system value

/-- First identifier carrying the given system, if any. -/
def findBySystem : List Identifier → String → Option Identifier
  | [], _ => none
  | i :: rest, system =>
    if i.system = some system then some i else findBySystem rest system

/-- Modelled from the spec: `getIdentifier` of the `@medplum/core` collaborator —
the value of the first identifier with the given system, or absence. -/
def getIdentifierList (l : List Identifier) (system : String) : Option Nat :=
  (findBySystem l system).bind (fun i => i.value)

/-- The registry operation `SchedulingTransientIdentifier.set` from `src/utils/scheduling.ts`. -/
def SchedulingTransientIdentifier.set (token : Nat) (r : Slot) : Slot :=
  { r with identifier := setIdentifierList r.identifier MedplumSchedulingTransientIdentifierURI token }

/-- The registry operation `SchedulingTransientIdentifier.get` from `src/utils/scheduling.ts`. -/
def SchedulingTransientIdentifier.get (r : Slot) : Option Nat :=
  getIdentifierList r.identifier MedplumSchedulingTransientIdentifierURI

/-- Modelled from the spec: `uuidv4()` yields a fresh unique token on every
call; freshness is modelled by consuming a counter value per assignment. -/
def assignTransient (c : Nat) (r : Slot) : Slot × Nat :=
  (SchedulingTransientIdentifier.set c r, c + 1)

theorem findBySystem_setIdentifierList (l : List Identifier) (system : String) (v : Nat) :
    findBySystem (setIdentifierList l system v) system =
      some ⟨some system, some v, some ("temp")⟩ := by
  induction l with
  | nil => simp [setIdentifierList, findBySystem]
  | cons i rest ih =>
    by_cases h : i.system = some system
    · simp [setIdentifierList, h, findBySystem]
    · simp [setIdentifierList, h, findBySystem, ih]

theorem setIdentifierList_overwrite (l : List Identifier) (system : String) (n m : Nat) :
    setIdentifierList (setIdentifierList l system n) system m =
      setIdentifierList l system m := by
  induction l with
  | nil => simp [setIdentifierList]
  | cons i rest ih =>
    by_cases h : i.system = some system
    · simp [setIdentifierList, h]
    · simp [setIdentifierList, h, ih]

theorem transient_get_set (r : Slot) (n : Nat) :
    SchedulingTransientIdentifier.get (SchedulingTransientIdentifier.set n r) = some n := by
  unfold SchedulingTransientIdentifier.get SchedulingTransientIdentifier.set getIdentifierList
  rw [findBySystem_setIdentifierList]
  rfl

/-- C9: assigning a token and then reading twice returns the same token both
times (reads are pure and return exactly the assigned token); tokens assigned
to distinct resource instances from the fresh supply are never equal;
assigning twice to the same resource overwrites the prior token; the stored
identifier is tagged with the reserved temporary-use marker; and assignment
leaves the resource's persisted `id` field unchanged. -/
theorem transientIdentifier_contract (r r2 : Slot) (n m c : Nat) :
    SchedulingTransientIdentifier.get (SchedulingTransientIdentifier.set n r) = some n ∧
    SchedulingTransientIdentifier.get ((assignTransient c r).1) ≠
      SchedulingTransientIdentifier.get ((assignTransient (assignTransient c r).2 r2).1) ∧
    SchedulingTransientIdentifier.set m (SchedulingTransientIdentifier.set n r) =
      SchedulingTransientIdentifier.set m r ∧
    findBySystem (SchedulingTransientIdentifier.set n r).identifier
        MedplumSchedulingTransientIdentifierURI =
      some ⟨some MedplumSchedulingTransientIdentifierURI, some n, some ("temp")⟩ ∧
    (SchedulingTransientIdentifier.set n r).id = r.id := by
  refine ⟨transient_get_set r n, ?_, ?_, ?_, rfl⟩
  · simp [assignTransient, transient_get_set]
  · unfold SchedulingTransientIdentifier.set
    simp [setIdentifierList_overwrite]
  · exact findBySystem_setIdentifierList r.identifier MedplumSchedulingTransientIdentifierURI n

/-! ### `$find` success normalization

From `FindPane.tsx`: on success, `bundle.entry.forEach((entry) => entry.resource
&& SchedulingTransientIdentifier.set(entry.resource))` then
`setSlots(bundle.entry.map((entry) => entry.resource).filter(isDefined))`;
`setSlots([])` when `entry` is absent. -/

/-- Walk the bundle entries in order: skip entries with no resource body,
assign a fresh transient token to each defined resource. -/
def processEntries (c : Nat) : List (Option Slot) → List Slot
  | [] => []
  | none :: rest => processEntries c rest
  | some s :: rest => SchedulingTransientIdentifier.set c s :: processEntries (c + 1) rest

/-- The `$find` success handler over an optional `entry` field. -/
def handleFindSuccess (c : Nat) (entry : Option (List (Option Slot))) : List Slot :=
  match entry with
  | none => []
  | some entries => processEntries c entries

/-- Sequential token assignment over a plain slot list. -/
def assignAll (c : Nat) : List Slot → List Slot
  | [] => []
  | s :: rest => SchedulingTransientIdentifier.set c s :: assignAll (c + 1) rest

theorem processEntries_filterMap (c : Nat) (entries : List (Option Slot)) :
    processEntries c entries = assignAll c (entries.filterMap id) := by
  induction entries generalizing c with
  | nil => rfl
  | cons e rest ih =>
    cases e with
    | none => simp [processEntries, List.filterMap_cons, ih]
    | some s => simp [processEntries, List.filterMap_cons, assignAll, ih]

theorem assignAll_has_token (c : Nat) (l : List Slot) :
    ∀ s ∈ assignAll c l, (SchedulingTransientIdentifier.get s).isSome = true := by
  induction l generalizing c with
  | nil => intro s hs; cases hs
  | cons a l ih =>
    intro s hs
    rcases List.mem_cons.mp hs with rfl | hs
    · rw [transient_get_set]; rfl
    · exact ih (c + 1) s hs

/-- C7: on a successful `$find` response, an absent `entry` field yields the
empty slot list; entries with no resource body are filtered out rather than
treated as fatal (the result is exactly the token assignment over the defined
resources, in order); and every slot in the returned list carries a transient
identifier — in particular every slot that lacked one was assigned one
before the list is returned. -/
theorem findSuccess_normalization (c : Nat) (entries : List (Option Slot)) :
    handleFindSuccess c none = [] ∧
    handleFindSuccess c (some entries) = assignAll c (entries.filterMap id) ∧
    (∀ s ∈ handleFindSuccess c (some entries),
      (SchedulingTransientIdentifier.get s).isSome = true) := by
  refine ⟨rfl, processEntries_filterMap c entries, ?_⟩
  intro s hs
  exact assignAll_has_token c (entries.filterMap id) s
    (processEntries_filterMap c entries ▸ hs)

/-! ### Booking transaction controller

From `BookAppointmentForm.tsx`:
```
const resources = data.entry?.map((entry) => entry.resource).filter(isDefined) ?? EMPTY;
const slots = resources.filter((obj): obj is Slot => obj.resourceType === 'Slot');
const appointments = resources.filter((obj): obj is Appointment => obj.resourceType === 'Appointment');
```
The TypeScript filter-with-type-guard is embedded as `filterMap` over a tagged
resource type. -/

/-- A `$book` response bundle entry resource: an Appointment or a Slot. -/
inductive BookResource where
  | appt (a : Appointment)
  | slot (s : Slot)
deriving DecidableEq, Repr

def toAppt : BookResource → Option Appointment
  | .appt a => some a
  | .slot _ => none

def toSlot : BookResource → Option Slot
  | .slot s => some s
  | .appt _ => none

/-- The extraction `data.entry?.map((entry) => entry.resource).filter(isDefined) ?? EMPTY`. -/
def bundleResources (entry : Option (List (Option BookResource))) : List BookResource :=
  (entry.getD []).filterMap id

/-- The partition of the `$book` response into appointments and slots. -/
def bookPartition (entry : Option (List (Option BookResource))) :
    List Appointment × List Slot :=
  let resources := bundleResources entry
  (resources.filterMap toAppt, resources.filterMap toSlot)

theorem mem_filterMap_toAppt (l : List BookResource) (a : Appointment) :
    BookResource.appt a ∈ l ↔ a ∈ l.filterMap toAppt := by
  rw [List.mem_filterMap]
  constructor
  · intro h
    exact ⟨BookResource.appt a, h, rfl⟩
  · rintro ⟨r, hr, he⟩
    cases r with
    | appt b =>
      rw [toAppt, Option.some_inj] at he
      rw [← he]
      exact hr
    | slot s => cases he

theorem mem_filterMap_toSlot (l : List BookResource) (s : Slot) :
    BookResource.slot s ∈ l ↔ s ∈ l.filterMap toSlot := by
  rw [List.mem_filterMap]
  constructor
  · intro h
    exact ⟨BookResource.slot s, h, rfl⟩
  · rintro ⟨r, hr, he⟩
    cases r with
    | slot b =>
      rw [toSlot, Option.some_inj] at he
      rw [← he]
      exact hr
    | appt a => cases he

theorem filterMap_toAppt_sublist (l : List BookResource) :
    ((l.filterMap toAppt).map BookResource.appt).Sublist l := by
  induction l with
  | nil => exact List.Sublist.refl []
  | cons r rest ih =>
    cases r with
    | appt a =>
      rw [List.filterMap_cons]
      exact List.Sublist.cons₂ (BookResource.appt a) ih
    | slot s =>
      rw [List.filterMap_cons]
      exact List.Sublist.cons (BookResource.slot s) ih

theorem filterMap_toSlot_sublist (l : List BookResource) :
    ((l.filterMap toSlot).map BookResource.slot).Sublist l := by
  induction l with
  | nil => exact List.Sublist.refl []
  | cons r rest ih =>
    cases r with
    | slot s =>
      rw [List.filterMap_cons]
      exact List.Sublist.cons₂ (BookResource.slot s) ih
    | appt a =>
      rw [List.filterMap_cons]
      exact List.Sublist.cons (BookResource.appt a) ih

theorem filterMap_partition_length (l : List BookResource) :
    (l.filterMap toAppt).length + (l.filterMap toSlot).length = l.length := by
  induction l with
  | nil => rfl
  | cons r rest ih =>
    cases r with
    | appt a =>
      rw [List.filterMap_cons, List.filterMap_cons]
      simp only [toAppt, toSlot, List.length_cons]
      omega
    | slot s =>
      rw [List.filterMap_cons, List.filterMap_cons]
      simp only [toAppt, toSlot, List.length_cons]
      omega

/-- C4: the booking controller partitions the `$book` response resources by
type — the appointments list holds exactly the Appointment resources and the
slots list exactly the Slot resources, each preserving server response order
(each embeds as a sublist of the response resource list), and the two lists
together exhaust the response resources. -/
theorem bookPartition_correct (entry : Option (List (Option BookResource))) :
    (∀ a : Appointment,
      BookResource.appt a ∈ bundleResources entry ↔ a ∈ (bookPartition entry).1) ∧
    (∀ s : Slot,
      BookResource.slot s ∈ bundleResources entry ↔ s ∈ (bookPartition entry).2) ∧
    ((bookPartition entry).1.map BookResource.appt).Sublist (bundleResources entry) ∧
    ((bookPartition entry).2.map BookResource.slot).Sublist (bundleResources entry) ∧
    (bookPartition entry).1.length + (bookPartition entry).2.length =
      (bundleResources entry).length :=
  ⟨fun a => mem_filterMap_toAppt (bundleResources entry) a,
   fun s => mem_filterMap_toSlot (bundleResources entry) s,
   filterMap_toAppt_sublist (bundleResources entry),
   filterMap_toSlot_sublist (bundleResources entry),
   filterMap_partition_length (bundleResources entry)⟩

/-! ### Booking submit guard and error policy

From `BookAppointmentForm.tsx`: `handleSubmit` returns immediately when no
patient is selected; otherwise `bookSlot` issues exactly one `medplum.post`
with no retry; a rejection is caught and shown (`showErrorNotification`) and
`onSuccess` is not invoked on failure. -/

/-- Observable outcome of one submit: how many `$book` posts were issued,
which error (if any) was surfaced, and the payload `onSuccess` was invoked
with (if any). -/
structure BookOutcome where
  posts : Nat
  notifiedError : Option Nat
  onSuccessResult : Option (List Appointment × List Slot)
deriving DecidableEq, Repr

/-- The controller `handleSubmit` composed with `bookSlot`, over the selected patient and the
server's response to the single `$book` request. -/
def handleSubmit (patient : Option String)
    (response : Except Nat (Option (List (Option BookResource)))) : BookOutcome :=
  match patient with
  | none => ⟨0, none, none⟩
  | some _ =>
    match response with
    | .ok entry => ⟨1, none, some (bookPartition entry)⟩
    | .error err => ⟨1, some err, none⟩

/-- C8: submitting without a selected patient performs no network call and
returns no result; with a patient selected each invocation issues exactly one
`$book` request (no internal retry); on failure the error is surfaced and the
success callback is not invoked, so nothing is merged into caller
collections; on success the callback receives the partitioned response. -/
theorem bookSubmit_guard (p : String)
    (response : Except Nat (Option (List (Option BookResource))))
    (err : Nat) (entry : Option (List (Option BookResource))) :
    handleSubmit none response = ⟨0, none, none⟩ ∧
    (handleSubmit (some p) response).posts = 1 ∧
    handleSubmit (some p) (.error err) = ⟨1, some err, none⟩ ∧
    handleSubmit (some p) (.ok entry) = ⟨1, none, some (bookPartition entry)⟩ := by
  refine ⟨rfl, ?_, rfl, rfl⟩
  cases response <;> rfl

/-! ### Schedule page merge handler

From `SchedulePage.tsx` `handleBookSuccess`:
```
setAppointments((state) => results.appointments.concat(state ?? EMPTY));
setSlots((state) => results.slots.filter((slot) => slot.status !== 'busy').concat(state ?? EMPTY));
```
-/

/-- The merge of a successful booking result into the page's collections. -/
def handleBookSuccess (results : List Appointment × List Slot)
    (prevAppointments : Option (List Appointment)) (prevSlots : Option (List Slot)) :
    List Appointment × List Slot :=
  (results.1 ++ prevAppointments.getD [],
   (results.2.filter (fun slot => slot.status != "busy")) ++ prevSlots.getD [])

/-- C10: after a successful booking, every returned appointment is prepended
to the appointment collection; exactly the returned slots whose status is not
`busy` are prepended to the slot collection (busy slots are excluded); and
every previously held appointment and slot is retained unchanged (the prior
collections are a suffix of the new ones). -/
theorem handleBookSuccess_merge (results : List Appointment × List Slot)
    (prevA : Option (List Appointment)) (prevS : Option (List Slot)) :
    (handleBookSuccess results prevA prevS).1 = results.1 ++ prevA.getD [] ∧
    List.IsSuffix (prevA.getD []) (handleBookSuccess results prevA prevS).1 ∧
    List.IsSuffix (prevS.getD []) (handleBookSuccess results prevA prevS).2 ∧
    (∀ s : Slot, s ∈ (handleBookSuccess results prevA prevS).2 ↔
      ((s ∈ results.2 ∧ ¬ s.status = "busy") ∨ s ∈ prevS.getD [])) := by
  refine ⟨rfl, ⟨results.1, rfl⟩, ⟨results.2.filter (fun slot => slot.status != "busy"), rfl⟩, ?_⟩
  intro s
  simp [handleBookSuccess, List.mem_filter]

/-! ### Service type selector

From `src/utils/scheduling.ts` (`serviceTypesFromSchedulingParameters`) and
`FindPane.tsx`.  The selector is tri-state: JS `null` is no-selection, JS
`undefined` is the wildcard, a `CodeableConcept` is a specific service type —
embedded as `Option (Option CodeableConcept)`, with `none` for no-selection
and `some none` for the wildcard. -/

structure Coding where
  system : Option String
  code : Option String
deriving DecidableEq, Repr

structure CodeableConcept where
  coding : Option (List Coding)
deriving DecidableEq, Repr

structure InnerExtension where
  url : String
  valueCodeableConcept : Option CodeableConcept
deriving DecidableEq, Repr

structure SchedExtension where
  url : String
  extension : List InnerExtension
deriving DecidableEq, Repr

structure Schedule where
  extension : Option (List SchedExtension)
deriving DecidableEq, Repr

def SchedulingParametersURI : String :=
  "https://medplum.com/fhir/StructureDefinition/SchedulingParameters"

/-- Modelled from the spec: `getExtensionValue(ext, 'serviceType')` from the
`@medplum/core` collaborator — the value of the nested extension with the
given url; an extension present with no coded value stands for the wildcard
(spec section 6). -/
def getExtensionValue (ext : SchedExtension) (key : String) : Option CodeableConcept :=
  (ext.extension.find? (fun e => e.url == key)).bind (fun e => e.valueCodeableConcept)

/-- The reader `serviceTypesFromSchedulingParameters` from `src/utils/scheduling.ts`. -/
def serviceTypesFromSchedulingParameters (schedule : Schedule) :
    List (Option CodeableConcept) :=
  ((schedule.extension.getD []).filter (fun ext => ext.url == SchedulingParametersURI)).map
    (fun ext => getExtensionValue ext ("serviceType"))

/-- Initial selector state (FindPane.tsx):
`serviceTypes.length === 1 ? serviceTypes[0].codeableConcept : null`. -/
def initialServiceType (serviceTypes : List (Option CodeableConcept)) :
    Option (Option CodeableConcept) :=
  match serviceTypes with
  | [st] => some st
  | _ => none

/-- The `$find` effect guard (FindPane.tsx):
`if (!schedule || serviceType === null) return` — the schedule prop is always
present, so a search fires exactly when a selection exists. -/
def searchFires (serviceType : Option (Option CodeableConcept)) : Bool :=
  serviceType.isSome

/-- C5: the tri-state selector drives search issuance: with zero configured
service types the selector starts as no-selection and no search fires; with
exactly one it auto-resolves to that type (the wildcard included, since `st`
ranges over wildcard too) and a search fires immediately; with two or more no
search fires until the user selects one, after which it does; the
no-selection state never fires a search (an idle state, not an error). -/
theorem serviceTypeSelector_correct (st chosen : Option CodeableConcept)
    (sts : List (Option CodeableConcept)) (h2 : 2 ≤ sts.length) :
    (initialServiceType [] = none ∧ searchFires (initialServiceType []) = false) ∧
    (initialServiceType [st] = some st ∧ searchFires (initialServiceType [st]) = true) ∧
    (initialServiceType sts = none ∧ searchFires (initialServiceType sts) = false ∧
      searchFires (some chosen) = true) ∧
    searchFires none = false := by
  rcases sts with _ | ⟨a, sts2⟩
  · simp at h2
  rcases sts2 with _ | ⟨b, rest⟩
  · simp at h2
  exact ⟨⟨rfl, rfl⟩, ⟨rfl, rfl⟩, ⟨rfl, rfl, rfl⟩, rfl⟩

/-- Witness for C5 with the wildcard as the single auto-selected type and a
two-option schedule. -/
theorem serviceTypeSelector_correct_witness :
    (initialServiceType [] = none ∧ searchFires (initialServiceType []) = false) ∧
    (initialServiceType [(none : Option CodeableConcept)] = some none ∧
      searchFires (initialServiceType [(none : Option CodeableConcept)]) = true) ∧
    (initialServiceType [none, none] = none ∧
      searchFires (initialServiceType [none, none]) = false ∧
      searchFires (some (none : Option CodeableConcept)) = true) ∧
    searchFires none = false :=
  serviceTypeSelector_correct none none [none, none] (by decide)

/-! ### `$find` query construction

From `FindPane.tsx`:
```
const params = new URLSearchParams({ start, end });
if (serviceType) {
  serviceType.coding?.forEach((coding) => {
    params.append('service-type', `${coding.system}|${coding.code}`);
  });
}
```
Within the effect the selector is non-null, so the remaining distinction is
wildcard (`none`) versus specific (`some ct`).  A JS template literal renders
an absent field as the string "undefined". -/

def optionToString : Option String → String
  | some s => s
  | none => "undefined"

/-- The term value `${coding.system}|${coding.code}`. -/
def codingParamValue (c : Coding) : String :=
  optionToString c.system ++ "|" ++ optionToString c.code

/-- The `service-type` parameters appended for the selected service type. -/
def serviceTypeParams (serviceType : Option CodeableConcept) : List (String × String) :=
  match serviceType with
  | none => []
  | some st =>
    (st.coding.getD []).map (fun c => ((("service-type") : String), codingParamValue c))

/-- The full `$find` query parameter list. -/
def findQueryParams (startStr endStr : String) (serviceType : Option CodeableConcept) :
    List (String × String) :=
  ((("start") : String), startStr) :: ((("end") : String), endStr) ::
    serviceTypeParams serviceType

/-- C6 counterexample: for a specific service type whose code set is empty
(`coding` present but `[]`), the query carries no service-type term even
though a specific service type is selected — so the query carries
service-type terms "if and only if a specific service type is selected" is
false. -/
theorem findQueryParams_serviceType_iff_cx :
    ¬ ∀ serviceType : Option CodeableConcept,
        (serviceTypeParams serviceType ≠ [] ↔ serviceType.isSome = true) := by
  intro h
  exact ((h (some ⟨some []⟩)).mpr rfl) rfl

/-- C6 (amended): the query always carries the computed start and end
parameters; it carries service-type terms only if a specific service type is
selected; when a specific service type is selected it carries exactly one
term per coding in that type's code set — hence none when that code set is
empty or absent — and every service-type term is `system|code` of one of the
selected type's codings; when the wildcard is selected it carries no
service-type term. -/
theorem findQueryParams_correct (startStr endStr : String)
    (serviceType : Option CodeableConcept) :
    ((("start") : String), startStr) ∈ findQueryParams startStr endStr serviceType ∧
    ((("end") : String), endStr) ∈ findQueryParams startStr endStr serviceType ∧
    (serviceTypeParams serviceType ≠ [] → serviceType.isSome = true) ∧
    (∀ ct, serviceType = some ct →
      (findQueryParams startStr endStr serviceType).countP
          (fun p => p.1 == "service-type") = (ct.coding.getD []).length) ∧
    (serviceType = none →
      ∀ v, ((("service-type") : String), v) ∉ findQueryParams startStr endStr serviceType) ∧
    (∀ v, ((("service-type") : String), v) ∈ findQueryParams startStr endStr serviceType →
      ∃ ct c, serviceType = some ct ∧ c ∈ ct.coding.getD [] ∧ v = codingParamValue c) := by
  refine ⟨?_, ?_, ?_, ?_, ?_, ?_⟩
  · exact List.mem_cons_self _ _
  · exact List.mem_cons_of_mem _ (List.mem_cons_self _ _)
  · intro h
    cases serviceType with
    | none => exact absurd rfl h
    | some ct => rfl
  · rintro ct rfl
    rw [findQueryParams]
    rw [List.countP_cons_of_neg, List.countP_cons_of_neg]
    · rw [serviceTypeParams]
      induction ct.coding.getD [] with
      | nil => rfl
      | cons c cs ih =>
        rw [List.map_cons, List.countP_cons_of_pos, ih, List.length_cons]
        rfl
    · simp
    · simp
  · rintro rfl v hv
    rcases List.mem_cons.mp hv with h | h
    · injection h with h1 h2
      exact absurd h1 (by decide)
    rcases List.mem_cons.mp h with h | h
    · injection h with h1 h2
      exact absurd h1 (by decide)
    · exact absurd h (List.not_mem_nil _)
  · intro v hv
    rcases List.mem_cons.mp hv with h | h
    · injection h with h1 h2
      exact absurd h1 (by decide)
    rcases List.mem_cons.mp h with h | h
    · injection h with h1 h2
      exact absurd h1 (by decide)
    cases serviceType with
    | none => exact absurd h (List.not_mem_nil _)
    | some ct =>
      rw [serviceTypeParams] at h
      obtain ⟨c, hc, he⟩ := List.mem_map.mp h
      refine ⟨ct, c, rfl, hc, ?_⟩
      exact (congrArg Prod.snd he).symm

/-- Witness for C6 (amended) at a specific service type with a single coding
`http://example.com/service-types|checkup`, and at the wildcard. -/
theorem findQueryParams_correct_witness :
    ((("start") : String), ("2024-01-15T09:30:00.000Z" : String)) ∈
      findQueryParams ("2024-01-15T09:30:00.000Z")
        ("2024-01-21T23:59:59.000Z")
        (some ⟨some [⟨some ("http://example.com/service-types"), some ("checkup")⟩]⟩) ∧
    (findQueryParams ("2024-01-15T09:30:00.000Z") ("2024-01-21T23:59:59.000Z")
        (some ⟨some [⟨some ("http://example.com/service-types"), some ("checkup")⟩]⟩)).countP
        (fun p => p.1 == "service-type") =
      ((some [⟨some ("http://example.com/service-types"), some ("checkup")⟩] :
        Option (List Coding)).getD []).length ∧
    ∀ v, ((("service-type") : String), v) ∉
      findQueryParams ("2024-01-15T09:30:00.000Z") ("2024-01-21T23:59:59.000Z") none :=
  ⟨(findQueryParams_correct ("2024-01-15T09:30:00.000Z") ("2024-01-21T23:59:59.000Z")
      (some ⟨some [⟨some ("http://example.com/service-types"), some ("checkup")⟩]⟩)).1,
   (findQueryParams_correct ("2024-01-15T09:30:00.000Z") ("2024-01-21T23:59:59.000Z")
      (some ⟨some [⟨some ("http://example.com/service-types"), some ("checkup")⟩]⟩)).2.2.2.1
      ⟨some [⟨some ("http://example.com/service-types"), some ("checkup")⟩]⟩ rfl,
   (findQueryParams_correct ("2024-01-15T09:30:00.000Z") ("2024-01-21T23:59:59.000Z")
      none).2.2.2.2.1 rfl⟩

/-! ### Concrete witnesses -/

/-- The spec's `$book` example response: one booked Appointment, the consumed
busy Slot, and a busy-unavailable buffer Slot, in response order. -/
def bookExampleEntry : Option (List (Option BookResource)) :=
  some [some (BookResource.appt ⟨some ("appointment-1"), ("booked")⟩),
        some (BookResource.slot ⟨some ("slot-1"), ("busy"), []⟩),
        some (BookResource.slot ⟨some ("slot-2"), ("busy-unavailable"), []⟩)]

theorem bookPartition_example :
    bookPartition bookExampleEntry =
      ([⟨some ("appointment-1"), ("booked")⟩],
       [⟨some ("slot-1"), ("busy"), []⟩, ⟨some ("slot-2"), ("busy-unavailable"), []⟩]) := by
  decide

/-- Witness for C3: the two-search race with a failing first request and a
one-slot second result. -/
theorem findCancellation_correct_witness :
    (runFind [.issue, .issue, .settle 0 (.fail 7), .settle 1 (.ok [42])]).deliveries =
      [(1, [42])] ∧
    (runFind [.issue, .issue, .settle 0 (.fail 7), .settle 1 (.ok [42])]).notifiedErrors = [] :=
  (findCancellation_correct (.fail 7) [42] 7).1

/-- Witness for C4 at the spec's example bundle. -/
theorem bookPartition_correct_witness :
    (bookPartition bookExampleEntry).1.length + (bookPartition bookExampleEntry).2.length =
      (bundleResources bookExampleEntry).length :=
  (bookPartition_correct bookExampleEntry).2.2.2.2

/-- Witness for C7 at a two-entry bundle whose second entry has no resource
body. -/
theorem findSuccess_normalization_witness :
    handleFindSuccess 0 none = [] ∧
    handleFindSuccess 0 (some [some ⟨none, ("free"), []⟩, none]) =
      assignAll 0 ([some (⟨none, ("free"), []⟩ : Slot), none].filterMap id) ∧
    (∀ s ∈ handleFindSuccess 0 (some [some ⟨none, ("free"), []⟩, none]),
      (SchedulingTransientIdentifier.get s).isSome = true) :=
  findSuccess_normalization 0 [some ⟨none, ("free"), []⟩, none]

/-- Witness for C8 with a failing and a succeeding `$book` response. -/
theorem bookSubmit_guard_witness :
    handleSubmit none (.error 3) = ⟨0, none, none⟩ ∧
    (handleSubmit (some ("patient-1")) (.error 3)).posts = 1 ∧
    handleSubmit (some ("patient-1")) (.error 3) = ⟨1, some 3, none⟩ ∧
    handleSubmit (some ("patient-1")) (.ok bookExampleEntry) =
      ⟨1, none, some (bookPartition bookExampleEntry)⟩ :=
  bookSubmit_guard ("patient-1") (.error 3) 3 bookExampleEntry

/-- Witness for C9: tokens assigned in sequence to two distinct slot
instances differ. -/
theorem transientIdentifier_contract_witness :
    SchedulingTransientIdentifier.get
        ((assignTransient 0 ⟨some ("slot-1"), ("free"), []⟩).1) ≠
      SchedulingTransientIdentifier.get
        ((assignTransient (assignTransient 0 ⟨some ("slot-1"), ("free"), []⟩).2
          ⟨some ("slot-2"), ("free"), []⟩).1) :=
  (transientIdentifier_contract ⟨some ("slot-1"), ("free"), []⟩
    ⟨some ("slot-2"), ("free"), []⟩ 5 6 0).2.1

/-- The spec's example booking result as seen by `handleBookSuccess`. -/
def bookExampleResults : List Appointment × List Slot :=
  ([⟨some ("appointment-1"), ("booked")⟩],
   [⟨some ("slot-1"), ("busy"), []⟩, ⟨some ("slot-2"), ("busy-unavailable"), []⟩])

theorem handleBookSuccess_example :
    handleBookSuccess bookExampleResults (some []) (some []) =
      ([⟨some ("appointment-1"), ("booked")⟩],
       [⟨some ("slot-2"), ("busy-unavailable"), []⟩]) := by
  decide

/-- Witness for C10 at the spec's example booking result over empty prior
collections. -/
theorem handleBookSuccess_merge_witness :
    (handleBookSuccess bookExampleResults (some []) (some [])).1 =
      bookExampleResults.1 ++ (some ([] : List Appointment)).getD [] :=
  (handleBookSuccess_merge bookExampleResults (some []) (some [])).1

end MedplumProvider
